import Mathlib

/-!
Verification development for the metapupil tomography module
(src/metapupil/tomography.py).  The Python code is shallowly embedded:
numpy arrays become functions or `Matrix (Fin _) (Fin _) ℝ`, float
arithmetic becomes exact real arithmetic, `scipy.special.gamma` becomes
`Real.Gamma`, and the mutable `tomography` object becomes an explicit
session state threaded through the solve calls.
-/

namespace Metapupil

open Classical

open scoped Matrix.L2OpNorm

/-- Embedding of `even(x)` (tomography.py line 14).  The function is applied
to the index difference `i - j`, which may be negative, hence the domain ℤ
(in the source, the Python `%` on negative ints agrees with `Int.emod`
on evenness). -/
def even (x : ℤ) : Bool := x % 2 == 0

/-- Modelled from the spec: `wavefront.nollIndices`, the Noll-index /
Zernike-mode bookkeeping, is an external collaborator that is not under
src/ (spec section 1 marks it OUT OF SCOPE).  Loop computing the radial
degree: the smallest n with `j ≤ (n+1)(n+2)/2`, fuelled recursion. -/
def nollLoop (j : ℕ) : ℕ → ℕ → ℕ
  | 0, n => n
  | fuel+1, n => if j ≤ (n+1)*(n+2)/2 then n else nollLoop j fuel (n+1)

/-- Modelled from the spec: radial degree of Noll index `j` (1-based). -/
def nollRadialDegree (j : ℕ) : ℕ := nollLoop j j 0

/-- Modelled from the spec: `wavefront.nollIndices j` returns the radial
degree `n` and the azimuthal frequency `|m|` of the mode with Noll index
`j` (glossary: a Zernike mode is "indexed by radial degree and azimuthal
frequency").  This is the standard Noll numbering.  The covariance code
compares the two frequencies only on pairs with even index difference,
where the Noll sign convention makes signed and unsigned azimuthal
frequencies agree, so returning `|m|` is equivalent there. -/
def nollIndices (j : ℕ) : ℕ × ℕ :=
  let n := nollRadialDegree j
  let j1 := j - 1 - n*(n+1)/2
  (n, if n % 2 = 0 then 2*((j1+1)/2) else 1 + 2*(j1/2))

/-! Kolmogorov covariance entry, mirroring the local variables `phase`,
`t1`, `t2`, `t3` of `generateTurbulentZernikesKolmogorov`
(tomography.py lines 185-189). -/

/-- Embedding of `phase = (-1.0)**(0.5*(ni+nj-2*mi))` (lines 185 and 219).
For genuine Zernike indices the exponent is an even integer divided by 2,
so the integer power below is exact. -/
noncomputable def covPhase (ni nj mi : ℕ) : ℝ :=
  (-1 : ℝ) ^ ((((ni : ℤ) + nj) - 2 * mi) / 2)

/-- Embedding of `t1` (line 186). -/
noncomputable def kolmT1 (D r0 : ℝ) (ni nj : ℕ) : ℝ :=
  Real.sqrt (((ni : ℝ) + 1) * ((nj : ℝ) + 1)) * Real.pi ^ ((8 : ℝ)/3)
    * 0.0072 * (D / r0) ^ ((5 : ℝ)/3)

/-- Embedding of `t2` (line 187). -/
noncomputable def kolmT2 (ni nj : ℕ) : ℝ :=
  Real.Gamma (14/3) * Real.Gamma (0.5 * ((ni : ℝ) + nj - 5/3))

/-- Embedding of `t3` (line 188). -/
noncomputable def kolmT3 (ni nj : ℕ) : ℝ :=
  Real.Gamma (0.5 * ((ni : ℝ) - nj + 17/3)) * Real.Gamma (0.5 * ((nj : ℝ) - ni + 17/3))
    * Real.Gamma (0.5 * ((ni : ℝ) + nj + 23/3))

/-- Embedding of the assignment `covariance[i,j] = phase * t1 * t2 / t3`
(line 189), as a function of the two radial degrees and the common
azimuthal frequency. -/
noncomputable def kolmogorovFormula (D r0 : ℝ) (ni nj mi : ℕ) : ℝ :=
  covPhase ni nj mi * kolmT1 D r0 ni nj * kolmT2 ni nj / kolmT3 ni nj

/-- Entry `[i, j]` of the Kolmogorov covariance matrix, parameterised by the
external mode-bookkeeping function `ν` (the code calls
`wf.nollIndices(i + self.noll0)`).  The matrix starts as `np.zeros` and an
entry is assigned only inside `if even(i - j): if mi == mj:`
(lines 178-189), so every other entry is exactly 0. -/
noncomputable def covKolmogorovEntry (ν : ℕ → ℕ × ℕ) (noll0 : ℕ) (D r0 : ℝ)
    (i j : ℕ) : ℝ :=
  if even ((i : ℤ) - j) then
    if (ν (i + noll0)).2 = (ν (j + noll0)).2 then
      kolmogorovFormula D r0 (ν (i + noll0)).1 (ν (j + noll0)).1 (ν (i + noll0)).2
    else 0
  else 0

/-! Von Karman covariance entry, mirroring the local variables `phase`,
`t1`, `phase2`, `t2`, `t3`, `phase3`, `t4`, `t5` of
`generateTurbulentZernikesVonKarman` (tomography.py lines 219-230). -/

/-- Embedding of `t1` (line 220). -/
noncomputable def vkT1 (D r0 : ℝ) (ni nj : ℕ) : ℝ :=
  Real.sqrt (((ni : ℝ) + 1) * ((nj : ℝ) + 1)) * Real.pi ^ ((8 : ℝ)/3)
    * 1.16 * (D / r0) ^ ((5 : ℝ)/3)

/-- Embedding of `phase2` (line 223). -/
noncomputable def vkPhase2 (D L0 : ℝ) (ni nj k : ℕ) : ℝ :=
  (-1 : ℝ) ^ k / (Nat.factorial k : ℝ)
    * (Real.pi * D / L0) ^ (2 * (k : ℝ) + ni + nj - 5/3)

/-- Embedding of `t2` (line 224). -/
noncomputable def vkT2 (ni nj k : ℕ) : ℝ :=
  Real.Gamma ((k : ℝ) + 0.5 * (3 + ni + nj)) * Real.Gamma ((k : ℝ) + 2 + 0.5 * ((ni : ℝ) + nj))
    * Real.Gamma ((k : ℝ) + 1 + 0.2 * ((ni : ℝ) + nj))
    * Real.Gamma (5/6 - (k : ℝ) - 0.5 * ((ni : ℝ) + nj))

/-- Embedding of `t3` (line 225). -/
noncomputable def vkT3 (ni nj k : ℕ) : ℝ :=
  Real.Gamma (3 + (k : ℝ) + ni + nj) * Real.Gamma (2 + (k : ℝ) + ni)
    * Real.Gamma (2 + (k : ℝ) + nj)

/-- Embedding of `phase3` (line 227). -/
noncomputable def vkPhase3 (D L0 : ℝ) (k : ℕ) : ℝ :=
  (Real.pi * D / L0) ^ (2 * (k : ℝ))

/-- Embedding of `t4` (line 228). -/
noncomputable def vkT4 (ni nj k : ℕ) : ℝ :=
  Real.Gamma (0.5 * ((ni : ℝ) + nj) - 5/6 - k) * Real.Gamma ((k : ℝ) + 7/3)
    * Real.Gamma ((k : ℝ) + 17/6) * Real.Gamma ((k : ℝ) + 11/6)

/-- Embedding of `t5` (line 229).  Note the source repeats the factor
`sp.gamma(0.5*(ni-nj)+17/6.+k)` twice; the embedding reproduces this
verbatim. -/
noncomputable def vkT5 (ni nj k : ℕ) : ℝ :=
  Real.Gamma (0.5 * ((ni : ℝ) + nj) + 23/6 + k) * Real.Gamma (0.5 * ((ni : ℝ) - nj) + 17/6 + k)
    * Real.Gamma (0.5 * ((ni : ℝ) - nj) + 17/6 + k)

/-- Summand `k` of `covariance[i,j] += phase * t1 * (phase2 * t2/t3 + phase3 * t4/t5)`
(line 230). -/
noncomputable def vonKarmanTerm (D r0 L0 : ℝ) (ni nj mi k : ℕ) : ℝ :=
  covPhase ni nj mi * vkT1 D r0 ni nj
    * (vkPhase2 D L0 ni nj k * vkT2 ni nj k / vkT3 ni nj k
        + vkPhase3 D L0 k * vkT4 ni nj k / vkT5 ni nj k)

/-- The 50-term truncated von Karman series (the `for k in range(50)`
accumulation of lines 222-230 into a zero-initialised entry). -/
noncomputable def vonKarmanSum (D r0 L0 : ℝ) (ni nj mi : ℕ) : ℝ :=
  ∑ k ∈ Finset.range 50, vonKarmanTerm D r0 L0 ni nj mi k

/-- Entry `[i, j]` of the von Karman covariance matrix
(tomography.py lines 212-230): assigned only when `even(i - j)` and the
azimuthal frequencies agree, otherwise left at its `np.zeros` value. -/
noncomputable def covVonKarmanEntry (ν : ℕ → ℕ × ℕ) (noll0 : ℕ) (D r0 L0 : ℝ)
    (i j : ℕ) : ℝ :=
  if even ((i : ℤ) - j) then
    if (ν (i + noll0)).2 = (ν (j + noll0)).2 then
      vonKarmanSum D r0 L0 (ν (i + noll0)).1 (ν (j + noll0)).1 (ν (i + noll0)).2
    else 0
  else 0

/-- Configuration of a `tomography` session (constructor arguments,
tomography.py lines 21-46). -/
structure TomoConfig where
  nStars : ℕ
  nZernike : ℕ
  fovArcsec : ℝ
  heightsKm : List ℝ
  DTel : ℝ
  addPiston : Bool := false

/-- Embedding of `self.nHeight = len(heights)` (line 34). -/
def TomoConfig.nHeight (c : TomoConfig) : ℕ := c.heightsKm.length

/-- Embedding of `self.fov = fov / 206265.0` (line 37). -/
noncomputable def TomoConfig.fov (c : TomoConfig) : ℝ := c.fovArcsec / 206265.0

/-- Embedding of `self.heights = heights * 1e3` (line 38): heights stored
in meters. -/
noncomputable def TomoConfig.heights (c : TomoConfig) : List ℝ :=
  c.heightsKm.map (fun h => h * 1e3)

/-- Embedding of `self.noll0` (lines 44-46): 1 with piston, else 2. -/
def TomoConfig.noll0 (c : TomoConfig) : ℕ := if c.addPiston then 1 else 2

/-- Azimuthal frequency of the mode behind matrix row/column `i`, as the
covariance generators look it up: `wf.nollIndices(i + self.noll0)`. -/
def TomoConfig.azimuthalFreq (c : TomoConfig) (i : ℕ) : ℕ :=
  (nollIndices (i + c.noll0)).2

/-- The Kolmogorov covariance matrix `self.covariance` built by
`generateTurbulentZernikesKolmogorov` (lines 178-189). -/
noncomputable def covKolmogorov (c : TomoConfig) (r0 : ℝ) :
    Matrix (Fin c.nZernike) (Fin c.nZernike) ℝ :=
  Matrix.of fun i j => covKolmogorovEntry nollIndices c.noll0 c.DTel r0 i j

/-- The von Karman covariance matrix `self.covariance` built by
`generateTurbulentZernikesVonKarman` (lines 212-230). -/
noncomputable def covVonKarman (c : TomoConfig) (r0 L0 : ℝ) :
    Matrix (Fin c.nZernike) (Fin c.nZernike) ℝ :=
  Matrix.of fun i j => covVonKarmanEntry nollIndices c.noll0 c.DTel r0 L0 i j

/-- Arithmetic fact used to build the block indices of the stacked matrix:
row `s*nZ + a` lies inside an `nZ*nS`-sized axis. -/
theorem mulAddLt {a s nZ nS : ℕ} (ha : a < nZ) (hs : s < nS) :
    s * nZ + a < nZ * nS := by
  calc s * nZ + a < s * nZ + nZ := Nat.add_lt_add_left ha _
    _ = (s + 1) * nZ := by ring
    _ ≤ nS * nZ := Nat.mul_le_mul_right nZ (Nat.succ_le_of_lt hs)
    _ = nZ * nS := Nat.mul_comm nS nZ

/-- Embedding of `stackProjection` (tomography.py lines 154-167): the loops
write block `M[:,:,i,j]` at rows `j*nZ..(j+1)*nZ`, columns `i*nZ..(i+1)*nZ`
(`i` = height, `j` = star), which in closed form makes entry `(r, c)` equal
to `M[r % nZ, c % nZ, c / nZ, r / nZ]`.  The projection tensor `M` (an
external product of the Geometry Resolver) is a plain function
`mode → mode → height → star → ℝ`. -/
def stackProjection (nZernike nHeight nStars : ℕ) (M : ℕ → ℕ → ℕ → ℕ → ℝ) :
    Matrix (Fin (nZernike * nStars)) (Fin (nZernike * nHeight)) ℝ :=
  Matrix.of fun r c =>
    M ((r : ℕ) % nZernike) ((c : ℕ) % nZernike) ((c : ℕ) / nZernike) ((r : ℕ) / nZernike)

/-- Embedding of `self.aStack['Original'] = self.a['Original'].T.flatten()`
(line 199): the realization `a` has shape (nZernike, nHeight); transposing
and flattening in C order puts `a[m, h]` at flat index `h*nZ + m`. -/
def flattenRealization (nZernike nHeight : ℕ) (a : ℕ → ℕ → ℝ) :
    Fin (nZernike * nHeight) → ℝ :=
  fun p => a ((p : ℕ) % nZernike) ((p : ℕ) / nZernike)

/-- Embedding of `x.reshape((nHeight, nZernike)).T` (lines 266 and 315):
entry `(m, h)` of the reshaped estimate is `x[h*nZ + m]`. -/
def reshapeEstimate (nZernike nHeight : ℕ) (x : Fin (nZernike * nHeight) → ℝ)
    (m : Fin nZernike) (h : Fin nHeight) : ℝ :=
  x ⟨(h : ℕ) * nZernike + m, mulAddLt m.isLt h.isLt⟩

/-- Embedding of `generateWFS` (lines 235-241):
`return self.MStack @ self.aStack['Original']`, a pure matrix-vector
product with no noise injection. -/
def generateWFS {p q : ℕ} (MStack : Matrix (Fin p) (Fin q) ℝ)
    (aStackOriginal : Fin q → ℝ) : Fin p → ℝ :=
  MStack.mulVec aStackOriginal

/-- Embedding of the `regularize=False` branch of `solveSVD`
(lines 261-263): `x = inv(MStack.T @ MStack) @ MStack.T @ b`. -/
noncomputable def solveSVDUnregularized {p q : ℕ} (MStack : Matrix (Fin p) (Fin q) ℝ)
    (b : Fin p → ℝ) : Fin q → ℝ :=
  (((MStack.transpose * MStack)⁻¹) * MStack.transpose).mulVec b

/-- Position of a flat coefficient index inside its `nZ`-block (used by the
block-diagonal regularizer). -/
def finModBlock {nZ nH : ℕ} (p : Fin (nZ * nH)) : Fin nZ :=
  ⟨(p : ℕ) % nZ, by
    have hpos : 0 < nZ := by
      rcases Nat.eq_zero_or_pos nZ with h | h
      · exact absurd p.isLt (by simp [h])
      · exact h
    exact Nat.mod_lt _ hpos⟩

/-- Embedding of `spla.block_diag(*[invCov]*nHeight)` (lines 256-258):
`nHeight` copies of a square block along the diagonal; entry `(p, q)` is
`B[p % nZ, q % nZ]` when `p` and `q` fall in the same block, else 0. -/
noncomputable def blockDiagCov (nZ nH : ℕ) (B : Matrix (Fin nZ) (Fin nZ) ℝ) :
    Matrix (Fin (nZ * nH)) (Fin (nZ * nH)) ℝ :=
  Matrix.of fun p q =>
    if (p : ℕ) / nZ = (q : ℕ) / nZ then B (finModBlock p) (finModBlock q) else 0

/-- Embedding of the `regularize=True` branch of `solveSVD`
(lines 255-263): `cov = block_diag of inv(covariance)` and
`x = inv(MStack.T@MStack + cov.T@cov) @ MStack.T @ b`. -/
noncomputable def solveSVDRegularized {p : ℕ} (nZ nH : ℕ)
    (MStack : Matrix (Fin p) (Fin (nZ * nH)) ℝ) (cov : Matrix (Fin nZ) (Fin nZ) ℝ)
    (b : Fin p → ℝ) : Fin (nZ * nH) → ℝ :=
  let C := blockDiagCov nZ nH cov⁻¹
  (((MStack.transpose * MStack + C.transpose * C)⁻¹) * MStack.transpose).mulVec b

/-- Embedding of the keep-only step of `generateTurbulentZernikesKolmogorov`
(lines 191-197).  The multivariate-normal sample (external randomness,
`np.random.multivariate_normal`) enters as the function `draw`; with a
keep-list, column `i` is zeroed whenever `self.heights[i]/1e3` is not in
the list. -/
noncomputable def aOriginalKolmogorov (c : TomoConfig) (draw : ℕ → ℕ → ℝ)
    (keepOnly : Option (List ℝ)) : ℕ → ℕ → ℝ :=
  fun m i =>
    match keepOnly with
    | none => draw m i
    | some keep => if c.heights.getD i 0 / 1e3 ∈ keep then draw m i else 0

/-- Spectral norm `np.linalg.norm(-, 2)` (line 292): the operator 2-norm of
the matrix, i.e. the norm of the induced map between Euclidean spaces. -/
noncomputable def spectralNorm {p q : ℕ} (A : Matrix (Fin p) (Fin q) ℝ) : ℝ := ‖A‖

/-- Gradient of the data-fidelity term as `solveFASTA` wires it up
(lines 297-302): the solver composes `At (gradf (A x))`, i.e.
`MStack.T @ (MStack @ x - b)`. -/
def dataFidelityGrad {p q : ℕ} (MStack : Matrix (Fin p) (Fin q) ℝ)
    (b : Fin p → ℝ) (x : Fin q → ℝ) : Fin q → ℝ :=
  MStack.transpose.mulVec (MStack.mulVec x - b)

/-- Argument record passed to the external solver `ps.sparse.fasta`
(line 311). -/
structure FastaArgs (p q : ℕ) where
  MStack : Matrix (Fin p) (Fin q) ℝ
  b : Fin p → ℝ
  x0 : Fin q → ℝ
  mu : ℝ
  tau : ℝ
  tol : ℝ
  maxIter : ℕ
  accelerate : Bool
  backtrack : Bool
  adaptive : Bool

/-- Mutable attributes of a `tomography` object that the solve calls touch:
`MStack`, `covariance`, the `aStack`/`a` dictionaries (keys `Original`,
`SVD`, `L1`), and the attributes `MStackStar` and `mu` created by
`solveFASTA`.  Absent dictionary entries and not-yet-created attributes
are `none`. -/
structure SessionState (nZ nH nS : ℕ) where
  MStack : Matrix (Fin (nZ * nS)) (Fin (nZ * nH)) ℝ
  covariance : Matrix (Fin nZ) (Fin nZ) ℝ
  aStack : String → Option (Fin (nZ * nH) → ℝ)
  a : String → Option (Fin nZ → Fin nH → ℝ)
  MStackStar : Option (Matrix (Fin (nZ * nH)) (Fin (nZ * nS)) ℝ)
  mu : Option ℝ

/-- Embedding of `solveSVD` (lines 245-266) as a state transformer: computes
the estimate and writes `aStack['SVD']` and `a['SVD']`. -/
noncomputable def solveSVD {nZ nH nS : ℕ} (st : SessionState nZ nH nS)
    (b : Fin (nZ * nS) → ℝ) (regularize : Bool) : SessionState nZ nH nS :=
  let x : Fin (nZ * nH) → ℝ :=
    if regularize then solveSVDRegularized nZ nH st.MStack st.covariance b
    else solveSVDUnregularized st.MStack b
  { st with
    aStack := fun key => if key = "SVD" then some x else st.aStack key
    a := fun key => if key = "SVD" then some (reshapeEstimate nZ nH x) else st.a key }

/-- The argument record `solveFASTA` builds for `ps.sparse.fasta`
(lines 292-311): `tau = 1.32/L` with `L = norm(MStack, 2)**2`, the zero
initial iterate `np.zeros_like`, the single regularization weight
`mu = 1e-5`, `tol=1e-12`, `maxIter=60000`, `accelerate=True`,
`backtrack=False`, `adaptive=False`. -/
noncomputable def solveFASTAArgs {nZ nH nS : ℕ} (st : SessionState nZ nH nS)
    (b : Fin (nZ * nS) → ℝ) : FastaArgs (nZ * nS) (nZ * nH) :=
  { MStack := st.MStack
    b := b
    x0 := fun _ => 0
    mu := 1e-5
    tau := 1.32 / spectralNorm st.MStack ^ 2
    tol := 1e-12
    maxIter := 60000
    accelerate := true
    backtrack := false
    adaptive := false }

/-- Embedding of `solveFASTA` (lines 283-315) as a state transformer.  The
external iterative solver (`ps.sparse.fasta(...).optimize()`) enters as the
function `fasta`; the method stores `self.MStackStar = self.MStack.T`,
sets `self.mu`, and writes `aStack['L1']` and `a['L1']`. -/
noncomputable def solveFASTA {nZ nH nS : ℕ}
    (fasta : FastaArgs (nZ * nS) (nZ * nH) → (Fin (nZ * nH) → ℝ))
    (st : SessionState nZ nH nS) (b : Fin (nZ * nS) → ℝ) : SessionState nZ nH nS :=
  let values := fasta (solveFASTAArgs st b)
  { st with
    MStackStar := some st.MStack.transpose
    mu := some 1e-5
    aStack := fun key => if key = "L1" then some values else st.aStack key
    a := fun key => if key = "L1" then some (reshapeEstimate nZ nH values) else st.a key }

/-- One persisted projection-matrix record, the contents of a
`matrices/transformationMatrices*.npz` file (saved at line 151 as
`(M, heights, nStars, nZernike, fov, DTel)`). -/
structure ProjectionRecord where
  M : ℕ → ℕ → ℕ → ℕ → ℝ
  heights : List ℝ
  nStars : ℕ
  nZernike : ℕ
  fov : ℝ
  DTel : ℝ

/-- Membership test of a cached height among the requested heights (the
elementwise test inside `np.in1d`, line 91). -/
noncomputable def heightMem (c : TomoConfig) (x : ℝ) : Bool := decide (x ∈ c.heights)

/-- Embedding of `ind = np.where(np.in1d(heights, self.heights))[0]`
(line 91): the ascending positions, in the cached heights array, of the
cached heights that occur among the requested heights. -/
noncomputable def matchIdx (r : ProjectionRecord) (c : TomoConfig) : List ℕ :=
  (List.range r.heights.length).filter fun t => heightMem c (r.heights.getD t 0)

/-- The match test of `projectionExists` (lines 92-94): the in1d count
equals the number of requested heights, same star count, cached Zernike
count at least the requested one, same field of view and telescope
diameter. -/
def recordMatches (r : ProjectionRecord) (c : TomoConfig) : Prop :=
  (matchIdx r c).length = c.nHeight ∧ r.nStars = c.nStars ∧
    c.nZernike ≤ r.nZernike ∧ r.fov = c.fov ∧ r.DTel = c.DTel

/-- Embedding of the slice `out['arr_0'][0:nZernike, 0:nZernike, ind, :]`
(line 95): height axis `k` is remapped through `ind`; the mode axes are
only ever read below `nZernike` by `stackProjection`. -/
noncomputable def sliceRecord (r : ProjectionRecord) (c : TomoConfig) : ℕ → ℕ → ℕ → ℕ → ℝ :=
  fun a b k s => r.M a b ((matchIdx r c).getD k 0) s

/-- Embedding of the scan of `projectionExists` (lines 83-106) over the
cache (the glob result, as the explicit list of persisted records): the
first record passing the superset test yields its sliced tensor. -/
noncomputable def findProjection (c : TomoConfig) :
    List ProjectionRecord → Option (ℕ → ℕ → ℕ → ℕ → ℝ)
  | [] => none
  | r :: rest =>
      if recordMatches r c then some (sliceRecord r c) else findProjection c rest

/-- Embedding of the assembly in `__init__` (lines 69-72) combined with
`stackProjection`: reuse the sliced cached tensor when the cache scan
succeeds, otherwise stack the freshly computed tensor (`computeProjection`,
whose per-block values come from the external `projection` module and enter
as the function `compute`). -/
noncomputable def assembleStack (c : TomoConfig) (cache : List ProjectionRecord)
    (compute : ℕ → ℕ → ℕ → ℕ → ℝ) :
    Matrix (Fin (c.nZernike * c.nStars)) (Fin (c.nZernike * c.nHeight)) ℝ :=
  match findProjection c cache with
  | some M => stackProjection c.nZernike c.nHeight c.nStars M
  | none => stackProjection c.nZernike c.nHeight c.nStars compute

/-- Error taxonomy of spec section 7. -/
inductive TomoError
  | invalidParameter
  | singularMatrix
  | nonConvergence
  | cacheInconsistency

/-- The two turbulence models of spec section 4.1. -/
inductive TurbulenceModel
  | kolmogorov
  | vonKarman

/-- Modelled from the spec (section 4.1, Errors): the claimed checked
covariance builder `buildCovariance(model, telescopeDiameter,
friedParameter, [outerScale])`, failing with InvalidParameter when
`friedParameter ≤ 0` or `telescopeDiameter ≤ 0`.  No such entry point or
check exists in tomography.py; this definition follows the words of the
spec and is compared against the actual generators. -/
noncomputable def buildCovarianceSpec (model : TurbulenceModel) (c : TomoConfig)
    (r0 L0 : ℝ) : Except TomoError (Matrix (Fin c.nZernike) (Fin c.nZernike) ℝ) :=
  if r0 ≤ 0 ∨ c.DTel ≤ 0 then Except.error TomoError.invalidParameter
  else
    match model with
    | TurbulenceModel.kolmogorov => Except.ok (covKolmogorov c r0)
    | TurbulenceModel.vonKarman => Except.ok (covVonKarman c r0 L0)

/-! Helper lemmas shared by several results below. -/

/-- Position arithmetic: the mode index inside a block. -/
theorem blockMod {nZ x y : ℕ} (hx : x < nZ) : (y * nZ + x) % nZ = x :=
  Nat.mul_add_mod_of_lt hx

/-- Position arithmetic: the block index of a flat coefficient index. -/
theorem blockDiv {nZ x y : ℕ} (hx : x < nZ) : (y * nZ + x) / nZ = y := by
  have hpos : 0 < nZ := Nat.lt_of_le_of_lt (Nat.zero_le x) hx
  rw [Nat.mul_comm, Nat.mul_add_div hpos, Nat.div_eq_of_lt hx, Nat.add_zero]

/-- Reshaping a flattened realization recovers it: the estimate layout
`x.reshape((nHeight, nZernike)).T` matches the realization layout
`a.T.flatten()`. -/
theorem reshape_flatten (nZ nH : ℕ) (a : ℕ → ℕ → ℝ) (m : Fin nZ) (h : Fin nH) :
    reshapeEstimate nZ nH (flattenRealization nZ nH a) m h = a m h := by
  simp [reshapeEstimate, flattenRealization, blockMod m.isLt, blockDiv m.isLt]

/-- Entry-level form of the covariance selection rule: both generators leave
entry `(i, j)` at its `np.zeros` value when the azimuthal frequencies
differ or `i - j` is odd, for any external mode bookkeeping `ν`. -/
theorem covEntry_eq_zero (ν : ℕ → ℕ × ℕ) (noll0 : ℕ) (D r0 L0 : ℝ) (i j : ℕ)
    (h : (ν (i + noll0)).2 ≠ (ν (j + noll0)).2 ∨ Odd ((i : ℤ) - j)) :
    covKolmogorovEntry ν noll0 D r0 i j = 0 ∧ covVonKarmanEntry ν noll0 D r0 L0 i j = 0 := by
  rcases h with h | h
  · constructor <;> simp [covKolmogorovEntry, covVonKarmanEntry, h]
  · have he : even ((i : ℤ) - j) = false := by
      simp [even, Int.odd_iff.mp h]
    constructor <;> simp [covKolmogorovEntry, covVonKarmanEntry, he]

/-- C1: for every configuration and every pair of mode indices, both the
Kolmogorov and the von Karman covariance matrices have entry `[i, j]`
exactly zero whenever the azimuthal frequencies of the two modes differ or
the index difference `i - j` is odd. -/
theorem covariance_selection_rule (c : TomoConfig) (r0 L0 : ℝ)
    (i j : Fin c.nZernike)
    (h : c.azimuthalFreq i ≠ c.azimuthalFreq j ∨ Odd (((i : ℕ) : ℤ) - ((j : ℕ) : ℤ))) :
    covKolmogorov c r0 i j = 0 ∧ covVonKarman c r0 L0 i j = 0 :=
  covEntry_eq_zero nollIndices c.noll0 c.DTel r0 L0 i j h

/-- Small concrete configuration used by the witnesses. -/
def demoConfig : TomoConfig :=
  { nStars := 1, nZernike := 2, fovArcsec := 60, heightsKm := [0], DTel := 4 }

/-- Witness for C1 at the concrete configuration: indices 1 and 0 have odd
difference, and both covariance entries are zero there. -/
theorem covariance_selection_rule_witness :
    Odd ((((⟨1, by decide⟩ : Fin demoConfig.nZernike) : ℕ) : ℤ)
        - (((⟨0, by decide⟩ : Fin demoConfig.nZernike) : ℕ) : ℤ))
    ∧ covKolmogorov demoConfig 0.15 ⟨1, by decide⟩ ⟨0, by decide⟩ = 0
    ∧ covVonKarman demoConfig 0.15 25 ⟨1, by decide⟩ ⟨0, by decide⟩ = 0 := by
  have hodd : Odd ((((⟨1, by decide⟩ : Fin demoConfig.nZernike) : ℕ) : ℤ)
      - (((⟨0, by decide⟩ : Fin demoConfig.nZernike) : ℕ) : ℤ)) := by decide
  have H := covariance_selection_rule demoConfig 0.15 25 ⟨1, by decide⟩ ⟨0, by decide⟩
    (Or.inr hodd)
  exact ⟨hodd, H.1, H.2⟩

/-- C3: with zero noise and an invertible normal matrix, the unregularized
least-squares solve applied to the noiseless measurement
`MStack @ flatten(a)` recovers the flattened realization exactly (in the
exact real arithmetic of the embedding), and the reshaped estimate equals
the original realization entrywise. -/
theorem solveSVD_noiseless_recovery {nZ nH p : ℕ}
    (MStack : Matrix (Fin p) (Fin (nZ * nH)) ℝ) (a : ℕ → ℕ → ℝ)
    (hdet : IsUnit (MStack.transpose * MStack).det) :
    solveSVDUnregularized MStack (generateWFS MStack (flattenRealization nZ nH a))
        = flattenRealization nZ nH a
    ∧ ∀ (m : Fin nZ) (h : Fin nH),
        reshapeEstimate nZ nH
            (solveSVDUnregularized MStack (generateWFS MStack (flattenRealization nZ nH a))) m h
          = a m h := by
  have key : solveSVDUnregularized MStack (generateWFS MStack (flattenRealization nZ nH a))
      = flattenRealization nZ nH a := by
    unfold solveSVDUnregularized generateWFS
    rw [Matrix.mulVec_mulVec, Matrix.mul_assoc, Matrix.nonsing_inv_mul _ hdet,
      Matrix.one_mulVec]
  refine ⟨key, fun m h => ?_⟩
  rw [key, reshape_flatten]

/-- Witness for C3: the identity system matrix is invertible and the
constant realization 2 is recovered exactly from its noiseless
measurement. -/
theorem solveSVD_noiseless_recovery_witness :
    IsUnit ((1 : Matrix (Fin (1 * 1)) (Fin (1 * 1)) ℝ).transpose * 1).det
    ∧ solveSVDUnregularized (1 : Matrix (Fin (1 * 1)) (Fin (1 * 1)) ℝ)
        (generateWFS (1 : Matrix (Fin (1 * 1)) (Fin (1 * 1)) ℝ)
          (flattenRealization 1 1 fun _ _ => 2))
      = flattenRealization 1 1 (fun _ _ => 2) := by
  have hdet : IsUnit ((1 : Matrix (Fin (1 * 1)) (Fin (1 * 1)) ℝ).transpose * 1).det := by
    simp
  exact ⟨hdet, (solveSVD_noiseless_recovery 1 (fun _ _ => 2) hdet).1⟩

/-- C4: with `regularize=True` the solver returns the solution of the
Tikhonov normal equations `(MᵗM + CᵗC) x = Mᵗ b`, where `C` is the
block-diagonal matrix of `nHeight` copies of the inverse per-layer
covariance, and the estimate is this flat solution reshaped to
`nZernike × nHeight` in layer-major order matching the realization
layout. -/
theorem solveSVD_regularized_solves (p nZ nH : ℕ)
    (MStack : Matrix (Fin p) (Fin (nZ * nH)) ℝ) (cov : Matrix (Fin nZ) (Fin nZ) ℝ)
    (b : Fin p → ℝ)
    (hdet : IsUnit (MStack.transpose * MStack
      + (blockDiagCov nZ nH cov⁻¹).transpose * blockDiagCov nZ nH cov⁻¹).det) :
    (MStack.transpose * MStack
        + (blockDiagCov nZ nH cov⁻¹).transpose * blockDiagCov nZ nH cov⁻¹).mulVec
        (solveSVDRegularized nZ nH MStack cov b)
      = MStack.transpose.mulVec b
    ∧ (∀ (m : Fin nZ) (h : Fin nH),
        reshapeEstimate nZ nH (solveSVDRegularized nZ nH MStack cov b) m h
          = solveSVDRegularized nZ nH MStack cov b ⟨(h : ℕ) * nZ + m, mulAddLt m.isLt h.isLt⟩)
    ∧ ∀ (aOrig : ℕ → ℕ → ℝ) (m : Fin nZ) (h : Fin nH),
        reshapeEstimate nZ nH (flattenRealization nZ nH aOrig) m h = aOrig m h := by
  refine ⟨?_, fun m h => rfl, fun aOrig m h => reshape_flatten nZ nH aOrig m h⟩
  unfold solveSVDRegularized
  rw [Matrix.mulVec_mulVec, ← Matrix.mul_assoc, Matrix.mul_nonsing_inv _ hdet,
    Matrix.one_mul]

/-- Witness for C4 on a concrete 1-mode, 1-layer, 1-star system. -/
theorem solveSVD_regularized_solves_witness :
    IsUnit ((1 : Matrix (Fin (1 * 1)) (Fin (1 * 1)) ℝ).transpose * 1
      + (blockDiagCov 1 1 (1 : Matrix (Fin 1) (Fin 1) ℝ)⁻¹).transpose
        * blockDiagCov 1 1 (1 : Matrix (Fin 1) (Fin 1) ℝ)⁻¹).det
    ∧ ((1 : Matrix (Fin (1 * 1)) (Fin (1 * 1)) ℝ).transpose * 1
        + (blockDiagCov 1 1 (1 : Matrix (Fin 1) (Fin 1) ℝ)⁻¹).transpose
          * blockDiagCov 1 1 (1 : Matrix (Fin 1) (Fin 1) ℝ)⁻¹).mulVec
        (solveSVDRegularized 1 1 (1 : Matrix (Fin (1 * 1)) (Fin (1 * 1)) ℝ)
          (1 : Matrix (Fin 1) (Fin 1) ℝ) fun _ => 3)
      = (1 : Matrix (Fin (1 * 1)) (Fin (1 * 1)) ℝ).transpose.mulVec (fun _ => 3) := by
  have hinv : (1 : Matrix (Fin 1) (Fin 1) ℝ)⁻¹ = 1 := Matrix.inv_eq_left_inv (by simp)
  have hC : blockDiagCov 1 1 (1 : Matrix (Fin 1) (Fin 1) ℝ)⁻¹ = 1 := by
    ext q r
    fin_cases q
    fin_cases r
    simp [blockDiagCov, finModBlock, hinv, Matrix.one_apply]
  have hdet : IsUnit ((1 : Matrix (Fin (1 * 1)) (Fin (1 * 1)) ℝ).transpose * 1
      + (blockDiagCov 1 1 (1 : Matrix (Fin 1) (Fin 1) ℝ)⁻¹).transpose
        * blockDiagCov 1 1 (1 : Matrix (Fin 1) (Fin 1) ℝ)⁻¹).det := by
    rw [hC]
    have hsum : ((1 : Matrix (Fin (1 * 1)) (Fin (1 * 1)) ℝ).transpose * 1
        + (1 : Matrix (Fin (1 * 1)) (Fin (1 * 1)) ℝ).transpose * 1)
        = (1 + 1 : Matrix (Fin (1 * 1)) (Fin (1 * 1)) ℝ) := by
      simp
    rw [hsum]
    have hd : (1 + 1 : Matrix (Fin (1 * 1)) (Fin (1 * 1)) ℝ).det = 2 := by
      show (1 + 1 : Matrix (Fin 1) (Fin 1) ℝ).det = 2
      rw [Matrix.det_fin_one]
      norm_num [Matrix.add_apply, Matrix.one_apply]
    rw [hd]
    exact isUnit_iff_ne_zero.mpr (by norm_num)
  exact ⟨hdet, (solveSVD_regularized_solves (1 * 1) 1 1 (1 : Matrix (Fin (1 * 1)) (Fin (1 * 1)) ℝ)
    (1 : Matrix (Fin 1) (Fin 1) ℝ) (fun _ => 3) hdet).1⟩

/-- C5: block `(star s, layer h)` of the stacked system matrix is exactly
the projection tensor slice `M[:, :, h, s]`, and the flattened coefficient
vectors are ordered layer-major (flat index `h*nZ + m` holds mode `m` of
layer `h`). -/
theorem stackProjection_block (nZ nH nS : ℕ) (M : ℕ → ℕ → ℕ → ℕ → ℝ)
    (s h a b : ℕ) (hs : s < nS) (hh : h < nH) (ha : a < nZ) (hb : b < nZ) :
    stackProjection nZ nH nS M ⟨s * nZ + a, mulAddLt ha hs⟩ ⟨h * nZ + b, mulAddLt hb hh⟩
        = M a b h s
    ∧ ∀ A : ℕ → ℕ → ℝ,
        flattenRealization nZ nH A ⟨h * nZ + a, mulAddLt ha hh⟩ = A a h := by
  constructor
  · simp [stackProjection, blockMod ha, blockMod hb, blockDiv ha, blockDiv hb]
  · intro A
    simp [flattenRealization, blockMod ha, blockDiv ha]

/-- Projection tensor used by the C5 witness. -/
noncomputable def demoTensor : ℕ → ℕ → ℕ → ℕ → ℝ :=
  fun a b h s => (a : ℝ) + 2 * b + 3 * h + 5 * s

/-- Witness for C5 on a 2-mode, 1-height, 1-star instance. -/
theorem stackProjection_block_witness :
    ((0 : ℕ) < 1 ∧ (0 : ℕ) < 1 ∧ (1 : ℕ) < 2 ∧ (0 : ℕ) < 2)
    ∧ stackProjection 2 1 1 demoTensor
        ⟨0 * 2 + 1, mulAddLt (by norm_num) (by norm_num)⟩
        ⟨0 * 2 + 0, mulAddLt (by norm_num) (by norm_num)⟩ = demoTensor 1 0 0 0
    ∧ flattenRealization 2 1 (fun m h => (m : ℝ) + h)
        ⟨0 * 2 + 1, mulAddLt (by norm_num) (by norm_num)⟩ = ((1 : ℕ) : ℝ) + ((0 : ℕ) : ℝ) := by
  have H := stackProjection_block 2 1 1 demoTensor 0 0 1 0
    (by norm_num) (by norm_num) (by norm_num) (by norm_num)
  exact ⟨⟨by norm_num, by norm_num, by norm_num, by norm_num⟩, H.1,
    H.2 (fun m h => (m : ℝ) + h)⟩

/-- C6: with a keep-list, every layer whose height (in km) is in the list
keeps its drawn sample and every other layer is set exactly to zero. -/
theorem keepOnly_layers (c : TomoConfig) (draw : ℕ → ℕ → ℝ) (keep : List ℝ)
    (m i : ℕ) (hi : i < c.nHeight) :
    (c.heightsKm.getD i 0 ∈ keep →
      aOriginalKolmogorov c draw (some keep) m i = draw m i)
    ∧ (c.heightsKm.getD i 0 ∉ keep →
      aOriginalKolmogorov c draw (some keep) m i = 0) := by
  have hlen : i < c.heights.length := by
    simpa [TomoConfig.heights, TomoConfig.nHeight] using hi
  have hh : c.heights.getD i 0 / 1e3 = c.heightsKm.getD i 0 := by
    rw [List.getD_eq_getElem _ _ hlen,
      List.getD_eq_getElem _ _ (by simpa [TomoConfig.nHeight] using hi)]
    simp only [TomoConfig.heights, List.getElem_map]
    rw [mul_div_cancel_right₀ _ (by norm_num : (1e3 : ℝ) ≠ 0)]
  have hform : aOriginalKolmogorov c draw (some keep) m i
      = if c.heightsKm.getD i 0 ∈ keep then draw m i else 0 := by
    simp only [aOriginalKolmogorov, hh]
  constructor <;> intro hmem
  · rw [hform, if_pos hmem]
  · rw [hform, if_neg hmem]

/-- Concrete two-layer configuration for the C6 witness. -/
def demoConfigTwoLayers : TomoConfig :=
  { nStars := 1, nZernike := 2, fovArcsec := 60, heightsKm := [0, 4], DTel := 4 }

/-- Witness for C6: layer 1 (height 4 km) is not in the keep-list [0] and
its column is zeroed. -/
theorem keepOnly_layers_witness :
    ((1 : ℕ) < demoConfigTwoLayers.nHeight
      ∧ demoConfigTwoLayers.heightsKm.getD 1 0 ∉ [(0 : ℝ)])
    ∧ aOriginalKolmogorov demoConfigTwoLayers (fun _ _ => 1) (some [(0 : ℝ)]) 0 1 = 0 := by
  have hi : (1 : ℕ) < demoConfigTwoLayers.nHeight := by
    norm_num [demoConfigTwoLayers, TomoConfig.nHeight]
  have hmem : demoConfigTwoLayers.heightsKm.getD 1 0 ∉ [(0 : ℝ)] := by
    norm_num [demoConfigTwoLayers]
  exact ⟨⟨hi, hmem⟩,
    (keepOnly_layers demoConfigTwoLayers (fun _ _ => 1) [(0 : ℝ)] 0 1 hi).2 hmem⟩

/-- Concrete configuration with `DTel = 0`, an invalid input per the spec
error contract (telescopeDiameter ≤ 0). -/
def invalidConfig : TomoConfig :=
  { nStars := 1, nZernike := 2, fovArcsec := 60, heightsKm := [0], DTel := 0 }

/-- Counterexample for C7: at the invalid input `DTel = 0` (and `r0 = 1`),
the spec-modelled checked builder fails with InvalidParameter, but the
actual Kolmogorov generator performs no validation and returns the
all-zero covariance matrix: a matrix is returned, no failure occurs. -/
theorem covariance_no_validation :
    buildCovarianceSpec TurbulenceModel.kolmogorov invalidConfig 1 25
        = Except.error TomoError.invalidParameter
    ∧ covKolmogorov invalidConfig 1 = 0 := by
  constructor
  · unfold buildCovarianceSpec
    rw [if_pos]
    exact Or.inr (by norm_num [invalidConfig])
  · ext i j
    have ht1 : kolmT1 invalidConfig.DTel 1 (nollIndices ((i : ℕ) + invalidConfig.noll0)).1
        (nollIndices ((j : ℕ) + invalidConfig.noll0)).1 = 0 := by
      unfold kolmT1
      have hD0 : invalidConfig.DTel = (0 : ℝ) := rfl
      have : ((invalidConfig.DTel / 1) : ℝ) ^ ((5 : ℝ)/3) = 0 := by
        rw [hD0, zero_div]
        exact Real.zero_rpow (by norm_num)
      rw [this, mul_zero]
    simp only [covKolmogorov, Matrix.of_apply, covKolmogorovEntry, kolmogorovFormula,
      Matrix.zero_apply]
    split_ifs <;> simp [ht1]

/-- Amended C7: the generators perform no input validation; at
`telescopeDiameter = 0` (invalid per the claim) both generators return the
all-zero covariance matrix instead of failing. -/
theorem covariance_no_validation_amended (c : TomoConfig) (r0 L0 : ℝ)
    (hD : c.DTel = 0) :
    covKolmogorov c r0 = 0 ∧ covVonKarman c r0 L0 = 0 := by
  have hrp : (0 : ℝ) ^ ((5 : ℝ)/3) = 0 := Real.zero_rpow (by norm_num)
  constructor
  · ext i j
    simp only [covKolmogorov, Matrix.of_apply, covKolmogorovEntry, kolmogorovFormula,
      kolmT1, hD, hrp, mul_zero, zero_mul, zero_div, Matrix.zero_apply, ite_self]
  · ext i j
    simp only [covVonKarman, Matrix.of_apply, covVonKarmanEntry, vonKarmanSum,
      vonKarmanTerm, vkT1, hD, hrp, mul_zero, zero_mul, zero_div,
      Finset.sum_const_zero, Matrix.zero_apply, ite_self]

/-- Witness for the amended C7 at the concrete invalid configuration. -/
theorem covariance_no_validation_amended_witness :
    invalidConfig.DTel = 0
    ∧ covKolmogorov invalidConfig 1 ⟨0, by decide⟩ ⟨0, by decide⟩ = 0
    ∧ covVonKarman invalidConfig 1 25 ⟨0, by decide⟩ ⟨0, by decide⟩ = 0 := by
  have H := covariance_no_validation_amended invalidConfig 1 25 rfl
  exact ⟨rfl, by rw [H.1]; simp, by rw [H.2]; simp⟩

/-- Concrete session state used by the C10 results. -/
noncomputable def demoState : SessionState 1 1 1 :=
  { MStack := 1, covariance := 1, aStack := fun _ => none, a := fun _ => none,
    MStackStar := none, mu := none }

/-- Counterexample for C10: `solveFASTA` does not write only its estimate
entry; it also creates/overwrites the attribute `mu` (and `MStackStar`),
so the state outside the estimates changes. -/
theorem solveFASTA_writes_mu :
    (solveFASTA (fun _ _ => 0) demoState (fun _ => 0)).mu ≠ demoState.mu
    ∧ (solveFASTA (fun _ _ => 0) demoState (fun _ => 0)).MStackStar
        ≠ demoState.MStackStar := by
  constructor <;> simp [solveFASTA, demoState]

/-- Amended C10: each solve call writes the estimate entries only for its
own method key and leaves the stacked matrix, the covariance matrix and
every other estimate key (in particular `Original`) unchanged;
`solveSVD` touches nothing else, while `solveFASTA` additionally writes
the auxiliary attributes `MStackStar` and `mu`. -/
theorem solve_frame_effects {nZ nH nS : ℕ} (st : SessionState nZ nH nS)
    (b : Fin (nZ * nS) → ℝ) (regularize : Bool)
    (fasta : FastaArgs (nZ * nS) (nZ * nH) → (Fin (nZ * nH) → ℝ)) :
    ((solveSVD st b regularize).MStack = st.MStack
      ∧ (solveSVD st b regularize).covariance = st.covariance
      ∧ (solveSVD st b regularize).MStackStar = st.MStackStar
      ∧ (solveSVD st b regularize).mu = st.mu
      ∧ ∀ key, key ≠ "SVD" →
          (solveSVD st b regularize).aStack key = st.aStack key
          ∧ (solveSVD st b regularize).a key = st.a key)
    ∧ ((solveFASTA fasta st b).MStack = st.MStack
      ∧ (solveFASTA fasta st b).covariance = st.covariance
      ∧ ∀ key, key ≠ "L1" →
          (solveFASTA fasta st b).aStack key = st.aStack key
          ∧ (solveFASTA fasta st b).a key = st.a key) := by
  refine ⟨⟨rfl, rfl, rfl, rfl, fun key hk => ⟨?_, ?_⟩⟩, rfl, rfl, fun key hk => ⟨?_, ?_⟩⟩ <;>
    simp [solveSVD, solveFASTA, hk]

/-- Witness for the amended C10: the `Original` entries survive both solve
calls on the concrete state. -/
theorem solve_frame_effects_witness :
    (("Original" : String) ≠ "SVD" ∧ ("Original" : String) ≠ "L1")
    ∧ (solveSVD demoState (fun _ => 0) false).aStack "Original"
        = demoState.aStack "Original"
    ∧ (solveFASTA (fun _ _ => 0) demoState (fun _ => 0)).aStack "Original"
        = demoState.aStack "Original" := by
  have H := solve_frame_effects demoState (fun _ => 0) false (fun _ _ => 0)
  exact ⟨⟨by decide, by decide⟩, (H.1.2.2.2.2 "Original" (by decide)).1,
    (H.2.2.2 "Original" (by decide)).1⟩

/-! Results for the symmetry of the covariance matrices.  The Kolmogorov
formula is symmetric in `i` and `j`, but the von Karman `t5`
(tomography.py line 229) repeats the factor `sp.gamma(0.5*(ni-nj)+17/6.+k)`
twice instead of using the symmetric pair with `nj-ni` (compare the
Kolmogorov `t3`, line 188), so the von Karman matrix is not symmetric. -/

/-- The Kolmogorov entry formula is symmetric under swapping the two modes
(for entries that pass the equal-azimuthal-frequency test). -/
theorem kolmogorovFormula_symm (D r0 : ℝ) (ni nj mi : ℕ) :
    kolmogorovFormula D r0 ni nj mi = kolmogorovFormula D r0 nj ni mi := by
  unfold kolmogorovFormula covPhase kolmT1 kolmT2 kolmT3
  ring_nf

/-- The Kolmogorov covariance matrix is symmetric (helper; part of the
context of the symmetry claim, which fails only on the von Karman side). -/
theorem covKolmogorov_symm (c : TomoConfig) (r0 : ℝ) (i j : Fin c.nZernike) :
    covKolmogorov c r0 i j = covKolmogorov c r0 j i := by
  show covKolmogorovEntry nollIndices c.noll0 c.DTel r0 i j
      = covKolmogorovEntry nollIndices c.noll0 c.DTel r0 j i
  unfold covKolmogorovEntry
  have he : even (((i : ℕ) : ℤ) - ((j : ℕ) : ℤ)) = even (((j : ℕ) : ℤ) - ((i : ℕ) : ℤ)) := by
    unfold even
    rw [show (((j : ℕ) : ℤ) - ((i : ℕ) : ℤ)) = -(((i : ℕ) : ℤ) - ((j : ℕ) : ℤ)) by ring,
      Int.neg_emod_two]
  rw [he]
  by_cases h2 : even (((j : ℕ) : ℤ) - ((i : ℕ) : ℤ))
  · rw [if_pos h2, if_pos h2]
    by_cases h3 : (nollIndices ((i : ℕ) + c.noll0)).2 = (nollIndices ((j : ℕ) + c.noll0)).2
    · rw [if_pos h3, if_pos h3.symm, kolmogorovFormula_symm, h3]
    · rw [if_neg h3, if_neg (fun h => h3 h.symm)]
  · rw [if_neg h2, if_neg h2]

/-- Gamma-function step used for the von Karman comparison:
`Γ(x + 23/6) = (x + 17/6)(x + 11/6) Γ(x + 11/6)` at `x = k`. -/
theorem vkGamma_step (k : ℕ) :
    Real.Gamma ((k : ℝ) + 23/6)
      = ((k : ℝ) + 17/6) * (((k : ℝ) + 11/6) * Real.Gamma ((k : ℝ) + 11/6)) := by
  have h1 : ((k : ℝ) + 11/6) ≠ 0 := by positivity
  have h2 : ((k : ℝ) + 17/6) ≠ 0 := by positivity
  have e1 : Real.Gamma (((k : ℝ) + 11/6) + 1) = ((k : ℝ) + 11/6) * Real.Gamma ((k : ℝ) + 11/6) :=
    Real.Gamma_add_one h1
  have e2 : Real.Gamma (((k : ℝ) + 17/6) + 1) = ((k : ℝ) + 17/6) * Real.Gamma ((k : ℝ) + 17/6) :=
    Real.Gamma_add_one h2
  have e3 : ((k : ℝ) + 17/6) + 1 = (k : ℝ) + 23/6 := by ring
  have e4 : ((k : ℝ) + 11/6) + 1 = (k : ℝ) + 17/6 := by ring
  rw [← e3, e2, ← e4, e1]

/-- The strict Gamma comparison behind the von Karman asymmetry. -/
theorem vkGamma_lt (k : ℕ) :
    Real.Gamma ((k : ℝ) + 11/6) < Real.Gamma ((k : ℝ) + 23/6) := by
  have hpos : 0 < Real.Gamma ((k : ℝ) + 11/6) :=
    Real.Gamma_pos_of_pos (by positivity)
  have hcoef : (1 : ℝ) < ((k : ℝ) + 17/6) * ((k : ℝ) + 11/6) := by
    have hk : (0 : ℝ) ≤ (k : ℝ) := Nat.cast_nonneg k
    nlinarith
  rw [vkGamma_step, ← mul_assoc]
  calc Real.Gamma ((k : ℝ) + 11/6) = 1 * Real.Gamma ((k : ℝ) + 11/6) := (one_mul _).symm
    _ < ((k : ℝ) + 17/6) * ((k : ℝ) + 11/6) * Real.Gamma ((k : ℝ) + 11/6) :=
        mul_lt_mul_of_pos_right hcoef hpos

/-- Normal form of `t5` for the mode pair `(49, 51)`. -/
theorem vkT5_4951 (k : ℕ) :
    vkT5 49 51 k = Real.Gamma ((k : ℝ) + 323/6)
      * Real.Gamma ((k : ℝ) + 11/6) * Real.Gamma ((k : ℝ) + 11/6) := by
  unfold vkT5
  rw [show 0.5 * (((49 : ℕ) : ℝ) + ((51 : ℕ) : ℝ)) + 23/6 + (k : ℝ) = (k : ℝ) + 323/6 by
      push_cast; ring,
    show 0.5 * (((49 : ℕ) : ℝ) - ((51 : ℕ) : ℝ)) + 17/6 + (k : ℝ) = (k : ℝ) + 11/6 by
      push_cast; ring]

/-- Normal form of `t5` for the mode pair `(51, 49)`. -/
theorem vkT5_5149 (k : ℕ) :
    vkT5 51 49 k = Real.Gamma ((k : ℝ) + 323/6)
      * Real.Gamma ((k : ℝ) + 23/6) * Real.Gamma ((k : ℝ) + 23/6) := by
  unfold vkT5
  rw [show 0.5 * (((51 : ℕ) : ℝ) + ((49 : ℕ) : ℝ)) + 23/6 + (k : ℝ) = (k : ℝ) + 323/6 by
      push_cast; ring,
    show 0.5 * (((51 : ℕ) : ℝ) - ((49 : ℕ) : ℝ)) + 17/6 + (k : ℝ) = (k : ℝ) + 23/6 by
      push_cast; ring]

/-- Positivity and ordering of the two `t5` variants. -/
theorem vkT5_pos_lt (k : ℕ) : 0 < vkT5 49 51 k ∧ vkT5 49 51 k < vkT5 51 49 k := by
  have h323 : 0 < Real.Gamma ((k : ℝ) + 323/6) := Real.Gamma_pos_of_pos (by positivity)
  have h11 : 0 < Real.Gamma ((k : ℝ) + 11/6) := Real.Gamma_pos_of_pos (by positivity)
  have h1123 := vkGamma_lt k
  have h23 : 0 < Real.Gamma ((k : ℝ) + 23/6) := lt_trans h11 h1123
  constructor
  · rw [vkT5_4951]
    exact mul_pos (mul_pos h323 h11) h11
  · rw [vkT5_4951, vkT5_5149]
    have s1 : Real.Gamma ((k : ℝ) + 323/6) * Real.Gamma ((k : ℝ) + 11/6)
        * Real.Gamma ((k : ℝ) + 11/6)
        < Real.Gamma ((k : ℝ) + 323/6) * Real.Gamma ((k : ℝ) + 23/6)
        * Real.Gamma ((k : ℝ) + 11/6) :=
      mul_lt_mul_of_pos_right (mul_lt_mul_of_pos_left h1123 h323) h11
    have s2 : Real.Gamma ((k : ℝ) + 323/6) * Real.Gamma ((k : ℝ) + 23/6)
        * Real.Gamma ((k : ℝ) + 11/6)
        < Real.Gamma ((k : ℝ) + 323/6) * Real.Gamma ((k : ℝ) + 23/6)
        * Real.Gamma ((k : ℝ) + 23/6) :=
      mul_lt_mul_of_pos_left h1123 (mul_pos h323 h23)
    exact s1.trans s2

/-- The symmetric pieces of the von Karman summand agree on the two
orders of the mode pair. -/
theorem vkSymPieces (k : ℕ) :
    vkT1 4 0.15 51 49 = vkT1 4 0.15 49 51
    ∧ vkPhase2 4 25 51 49 k = vkPhase2 4 25 49 51 k
    ∧ vkT2 51 49 k = vkT2 49 51 k
    ∧ vkT3 51 49 k = vkT3 49 51 k
    ∧ vkT4 51 49 k = vkT4 49 51 k := by
  refine ⟨?_, ?_, ?_, ?_, ?_⟩ <;>
    · simp only [vkT1, vkPhase2, vkT2, vkT3, vkT4]
      push_cast
      ring_nf

/-- Positivity of the factors multiplying the asymmetric `1/t5`. -/
theorem vkFactors_pos (k : ℕ) (hk : k < 50) :
    0 < vkT1 4 0.15 49 51 ∧ 0 < vkPhase3 4 25 k ∧ 0 < vkT4 49 51 k := by
  refine ⟨?_, ?_, ?_⟩
  · unfold vkT1
    have h1 : 0 < Real.sqrt ((((49 : ℕ) : ℝ) + 1) * (((51 : ℕ) : ℝ) + 1)) := by
      apply Real.sqrt_pos.mpr
      push_cast
      norm_num
    have h2 : 0 < Real.pi ^ ((8 : ℝ)/3) := Real.rpow_pos_of_pos Real.pi_pos _
    have h3 : 0 < ((4 : ℝ)/0.15) ^ ((5 : ℝ)/3) := Real.rpow_pos_of_pos (by norm_num) _
    have h4 : (0 : ℝ) < 1.16 := by norm_num
    exact mul_pos (mul_pos (mul_pos h1 h2) h4) h3
  · exact Real.rpow_pos_of_pos (by positivity) _
  · unfold vkT4
    have hk49 : (k : ℝ) ≤ 49 := by
      exact_mod_cast Nat.lt_succ_iff.mp hk
    have h1 : 0 < 0.5 * (((49 : ℕ) : ℝ) + ((51 : ℕ) : ℝ)) - 5/6 - (k : ℝ) := by
      push_cast
      linarith
    exact mul_pos (mul_pos (mul_pos (Real.Gamma_pos_of_pos h1)
      (Real.Gamma_pos_of_pos (by positivity))) (Real.Gamma_pos_of_pos (by positivity)))
      (Real.Gamma_pos_of_pos (by positivity))

/-- The sign factor of the summand for both orders of the pair. -/
theorem covPhase_pair : covPhase 49 51 1 = -1 ∧ covPhase 51 49 1 = -1 := by
  constructor
  · unfold covPhase
    rw [show (((49 : ℕ) : ℤ) + ((51 : ℕ) : ℤ) - 2 * ((1 : ℕ) : ℤ)) / 2 = (49 : ℤ) by decide]
    norm_num
  · unfold covPhase
    rw [show (((51 : ℕ) : ℤ) + ((49 : ℕ) : ℤ) - 2 * ((1 : ℕ) : ℤ)) / 2 = (49 : ℤ) by decide]
    norm_num

/-- Strict summand comparison: for every truncation index `k < 50` the
summand of entry `(i, j)` is strictly below the summand of entry
`(j, i)` for the mode pair with radial degrees 49 and 51 and azimuthal
frequency 1. -/
theorem vonKarmanTerm_lt (k : ℕ) (hk : k < 50) :
    vonKarmanTerm 4 0.15 25 49 51 1 k < vonKarmanTerm 4 0.15 25 51 49 1 k := by
  obtain ⟨hT1, hP2, hT2, hT3, hT4⟩ := vkSymPieces k
  obtain ⟨hT5pos, hT5lt⟩ := vkT5_pos_lt k
  obtain ⟨hT1pos, hP3pos, hT4pos⟩ := vkFactors_pos k hk
  obtain ⟨hph1, hph2⟩ := covPhase_pair
  unfold vonKarmanTerm
  rw [hph1, hph2, hT1, hP2, hT2, hT3, hT4]
  have hfrac : vkPhase3 4 25 k * vkT4 49 51 k / vkT5 51 49 k
      < vkPhase3 4 25 k * vkT4 49 51 k / vkT5 49 51 k :=
    div_lt_div_of_pos_left (mul_pos hP3pos hT4pos) hT5pos hT5lt
  have hsum : vkPhase2 4 25 49 51 k * vkT2 49 51 k / vkT3 49 51 k
        + vkPhase3 4 25 k * vkT4 49 51 k / vkT5 51 49 k
      < vkPhase2 4 25 49 51 k * vkT2 49 51 k / vkT3 49 51 k
        + vkPhase3 4 25 k * vkT4 49 51 k / vkT5 49 51 k :=
    add_lt_add_left hfrac _
  have hmul := mul_lt_mul_of_pos_left hsum hT1pos
  rw [neg_one_mul, neg_mul, neg_mul]
  exact neg_lt_neg hmul

/-- Configuration large enough to contain the asymmetric mode pair:
matrix indices 1224 and 1326 are Noll indices 1226 and 1328, the modes
`(n, m) = (49, 1)` and `(51, 1)`, with even index difference. -/
def vkConfig : TomoConfig :=
  { nStars := 1, nZernike := 1327, fovArcsec := 60, heightsKm := [0], DTel := 4 }

/-- C2 (code bug): the von Karman covariance matrix is NOT symmetric: at
the mode pair with radial degrees 49 and 51 and equal azimuthal frequency
1, entry `[1224, 1326]` is strictly below entry `[1326, 1224]`, because
`t5` (line 229) uses `Γ(0.5(ni-nj)+17/6+k)` twice instead of a symmetric
pair.  The matrix is then fed to `np.random.multivariate_normal`, which
expects a symmetric covariance, and the spec states symmetry, so the code,
not the claim, is wrong. -/
theorem covVonKarman_not_symmetric :
    covVonKarman vkConfig 0.15 25 ⟨1224, by norm_num [vkConfig]⟩ ⟨1326, by norm_num [vkConfig]⟩
      ≠ covVonKarman vkConfig 0.15 25 ⟨1326, by norm_num [vkConfig]⟩
          ⟨1224, by norm_num [vkConfig]⟩ := by
  have hn1 : nollIndices 1226 = (49, 1) := by decide
  have hn2 : nollIndices 1328 = (51, 1) := by decide
  have hnoll0 : vkConfig.noll0 = 2 := rfl
  have hD : vkConfig.DTel = 4 := rfl
  have e1 : covVonKarmanEntry nollIndices vkConfig.noll0 vkConfig.DTel 0.15 25 1224 1326
      = vonKarmanSum 4 0.15 25 49 51 1 := by
    unfold covVonKarmanEntry
    rw [hnoll0, hD]
    rw [if_pos (by decide : even (((1224 : ℕ) : ℤ) - ((1326 : ℕ) : ℤ)) = true)]
    rw [show (1224 + 2 : ℕ) = 1226 from rfl, show (1326 + 2 : ℕ) = 1328 from rfl, hn1, hn2]
    simp
  have e2 : covVonKarmanEntry nollIndices vkConfig.noll0 vkConfig.DTel 0.15 25 1326 1224
      = vonKarmanSum 4 0.15 25 51 49 1 := by
    unfold covVonKarmanEntry
    rw [hnoll0, hD]
    rw [if_pos (by decide : even (((1326 : ℕ) : ℤ) - ((1224 : ℕ) : ℤ)) = true)]
    rw [show (1326 + 2 : ℕ) = 1328 from rfl, show (1224 + 2 : ℕ) = 1226 from rfl, hn2, hn1]
    simp
  show covVonKarmanEntry nollIndices vkConfig.noll0 vkConfig.DTel 0.15 25 1224 1326
      ≠ covVonKarmanEntry nollIndices vkConfig.noll0 vkConfig.DTel 0.15 25 1326 1224
  rw [e1, e2]
  apply ne_of_lt
  unfold vonKarmanSum
  exact Finset.sum_lt_sum_of_nonempty (Finset.nonempty_range_iff.mpr (by norm_num))
    (fun k hk => vonKarmanTerm_lt k (Finset.mem_range.mp hk))

/-- C8: the sparse solver passes the proximal-gradient step size
`tau = 1.32 / L` to `ps.sparse.fasta`, where `L` is the squared spectral
norm of the stacked system matrix; and this `L` is indeed a Lipschitz
bound for the data-fidelity gradient `x ↦ MStack.T @ (MStack @ x - b)`
wired into the solver. -/
theorem solveFASTA_tau {nZ nH nS : ℕ} (st : SessionState nZ nH nS)
    (b : Fin (nZ * nS) → ℝ) :
    (solveFASTAArgs st b).tau = 1.32 / spectralNorm st.MStack ^ 2
    ∧ ∀ u v : Fin (nZ * nH) → ℝ,
        ‖(EuclideanSpace.equiv (Fin (nZ * nH)) ℝ).symm
            (dataFidelityGrad st.MStack b u - dataFidelityGrad st.MStack b v)‖
          ≤ spectralNorm st.MStack ^ 2
            * ‖(EuclideanSpace.equiv (Fin (nZ * nH)) ℝ).symm (u - v)‖ := by
  refine ⟨rfl, fun u v => ?_⟩
  have hgrad : dataFidelityGrad st.MStack b u - dataFidelityGrad st.MStack b v
      = (st.MStack.transpose * st.MStack).mulVec (u - v) := by
    unfold dataFidelityGrad
    rw [← Matrix.mulVec_sub, sub_sub_sub_cancel_right, ← Matrix.mulVec_sub,
      Matrix.mulVec_mulVec]
  have hnorm : ‖st.MStack.transpose * st.MStack‖ = spectralNorm st.MStack ^ 2 := by
    rw [← Matrix.conjTranspose_eq_transpose_of_trivial,
      Matrix.l2_opNorm_conjTranspose_mul_self, pow_two]
    rfl
  have key := Matrix.l2_opNorm_mulVec (st.MStack.transpose * st.MStack)
    ((EuclideanSpace.equiv (Fin (nZ * nH)) ℝ).symm (u - v))
  rw [hgrad, ← hnorm]
  exact key

/-! Results for the projection-matrix cache (`projectionExists`). -/

/-- Counting positions instead of elements: the in1d position count over a
list equals the element filter count. -/
theorem rangeFilter_length (q : ℝ → Bool) :
    ∀ l : List ℝ,
      ((List.range l.length).filter fun t => q (l.getD t 0)).length
        = (l.filter q).length
  | [] => rfl
  | x :: xs => by
    have ih := rangeFilter_length q xs
    rw [List.length_cons, List.range_succ_eq_map, List.filter_cons, List.filter_cons]
    have hcomp : ((fun t => q ((x :: xs).getD t 0)) ∘ Nat.succ)
        = fun t => q (xs.getD t 0) := by
      funext t
      simp [List.getD_cons_succ]
    rw [List.filter_map, hcomp]
    have hx : ((x :: xs).getD 0 0) = x := List.getD_cons_zero
    by_cases hqx : q x = true
    · rw [hx, if_pos hqx, if_pos hqx, List.length_cons, List.length_cons,
        List.length_map, ih]
    · rw [hx, if_neg hqx, if_neg hqx, List.length_map, ih]

/-- A nodup list filtered down to the members of a nodup subset has the
length of the subset. -/
theorem filter_mem_length (q : ℝ → Bool) (l2 l1 : List ℝ) (h2 : l2.Nodup)
    (h1 : l1.Nodup) (hq : ∀ x, q x = true ↔ x ∈ l1)
    (hsub : ∀ x ∈ l1, x ∈ l2) :
    (l2.filter q).length = l1.length := by
  have hperm : (l2.filter q).Perm l1 := by
    apply (List.perm_ext_iff_of_nodup (h2.filter _) h1).mpr
    intro a
    constructor
    · intro ha
      obtain ⟨_, hdec⟩ := List.mem_filter.mp ha
      exact (hq a).mp hdec
    · intro ha1
      exact List.mem_filter.mpr ⟨hsub a ha1, (hq a).mpr ha1⟩
  exact hperm.length_eq

/-- The claim-side superset description implies the match test the code
actually runs in `projectionExists` (for height lists without duplicates,
as Configuration holds a set of altitudes). -/
theorem recordMatches_of_superset (r : ProjectionRecord) (c : TomoConfig)
    (hnr : r.heights.Nodup) (hnc : c.heights.Nodup)
    (hsub : ∀ h ∈ c.heights, h ∈ r.heights)
    (hst : r.nStars = c.nStars) (hz : c.nZernike ≤ r.nZernike)
    (hfov : r.fov = c.fov) (hD : r.DTel = c.DTel) : recordMatches r c := by
  refine ⟨?_, hst, hz, hfov, hD⟩
  unfold matchIdx
  rw [rangeFilter_length (heightMem c) r.heights,
    filter_mem_length (heightMem c) r.heights c.heights hnr hnc
      (fun x => by simp [heightMem]) hsub]
  simp [TomoConfig.heights, TomoConfig.nHeight]

/-- The cache scan succeeds as soon as some record in the cache matches,
returning the sliced tensor of the first matching record. -/
theorem findProjection_some (c : TomoConfig) :
    ∀ (cache : List ProjectionRecord) (r : ProjectionRecord),
      r ∈ cache → recordMatches r c →
      ∃ r2 ∈ cache, recordMatches r2 c
        ∧ findProjection c cache = some (sliceRecord r2 c)
  | [], r, hr, _ => absurd hr (List.not_mem_nil r)
  | hd :: tl, r, hr, hm => by
    by_cases hhd : recordMatches hd c
    · refine ⟨hd, List.mem_cons_self hd tl, hhd, ?_⟩
      unfold findProjection
      rw [if_pos hhd]
    · have hr2 : r ∈ tl := by
        rcases List.mem_cons.mp hr with h | h
        · exact absurd (h ▸ hm) hhd
        · exact h
      obtain ⟨r2, h2, hm2, he⟩ := findProjection_some c tl r hr2 hm
      refine ⟨r2, List.mem_cons_of_mem hd h2, hm2, ?_⟩
      unfold findProjection
      rw [if_neg hhd]
      exact he

/-- C9: with a populated cache holding a record that matches the requested
configuration as a superset (same star count, at least as many Zernike
modes, same field of view and telescope diameter, heights containing every
requested height), assembly reuses a sliced subset of the cached tensor:
the scan returns the slice of the first matching record, and the stacked
matrix does not depend on the recompute path at all, so two assemblies
with the identical configuration and cache give identical matrices. -/
theorem assemble_superset_reuse (c : TomoConfig) (cache : List ProjectionRecord)
    (r : ProjectionRecord) (hr : r ∈ cache)
    (hnr : r.heights.Nodup) (hnc : c.heights.Nodup)
    (hsub : ∀ h ∈ c.heights, h ∈ r.heights)
    (hst : r.nStars = c.nStars) (hz : c.nZernike ≤ r.nZernike)
    (hfov : r.fov = c.fov) (hD : r.DTel = c.DTel) :
    (∃ r2 ∈ cache, recordMatches r2 c
      ∧ findProjection c cache = some (sliceRecord r2 c)
      ∧ ∀ compute : ℕ → ℕ → ℕ → ℕ → ℝ,
          assembleStack c cache compute
            = stackProjection c.nZernike c.nHeight c.nStars (sliceRecord r2 c))
    ∧ ∀ compute1 compute2 : ℕ → ℕ → ℕ → ℕ → ℝ,
        assembleStack c cache compute1 = assembleStack c cache compute2 := by
  have hm : recordMatches r c :=
    recordMatches_of_superset r c hnr hnc hsub hst hz hfov hD
  obtain ⟨r2, h2, hm2, he⟩ := findProjection_some c cache r hr hm
  have hstack : ∀ compute : ℕ → ℕ → ℕ → ℕ → ℝ,
      assembleStack c cache compute
        = stackProjection c.nZernike c.nHeight c.nStars (sliceRecord r2 c) := by
    intro compute
    unfold assembleStack
    rw [he]
  exact ⟨⟨r2, h2, hm2, he, hstack⟩,
    fun c1 c2 => (hstack c1).trans (hstack c2).symm⟩

/-- A cached record that covers `demoConfig` as a strict superset: one more
height and the same mode count, star count, field of view and telescope
diameter. -/
noncomputable def demoRecord : ProjectionRecord :=
  { M := fun a b h s => (a : ℝ) + b + h + s
    heights := [0, 5000]
    nStars := 1
    nZernike := 2
    fov := demoConfig.fov
    DTel := demoConfig.DTel }

/-- Witness for C9 on the concrete configuration and cache. -/
theorem assemble_superset_reuse_witness :
    (demoRecord ∈ [demoRecord]
      ∧ demoRecord.heights.Nodup
      ∧ demoConfig.heights.Nodup
      ∧ (∀ h ∈ demoConfig.heights, h ∈ demoRecord.heights)
      ∧ demoRecord.nStars = demoConfig.nStars
      ∧ demoConfig.nZernike ≤ demoRecord.nZernike
      ∧ demoRecord.fov = demoConfig.fov
      ∧ demoRecord.DTel = demoConfig.DTel)
    ∧ assembleStack demoConfig [demoRecord] (fun _ _ _ _ => 0)
        = assembleStack demoConfig [demoRecord] (fun _ _ _ _ => 1) := by
  have hnr : demoRecord.heights.Nodup := by
    simp [demoRecord]
  have hnc : demoConfig.heights.Nodup := by
    simp [demoConfig, TomoConfig.heights]
  have hsub : ∀ h ∈ demoConfig.heights, h ∈ demoRecord.heights := by
    intro h hh
    simp only [demoConfig, TomoConfig.heights, List.map_cons, List.map_nil,
      List.mem_singleton] at hh
    simp [demoRecord, hh]
  have H := assemble_superset_reuse demoConfig [demoRecord] demoRecord
    (List.mem_singleton.mpr rfl) hnr hnc hsub rfl (by norm_num [demoRecord, demoConfig]) rfl rfl
  exact ⟨⟨List.mem_singleton.mpr rfl, hnr, hnc, hsub, rfl,
    by norm_num [demoRecord, demoConfig], rfl, rfl⟩,
    H.2 (fun _ _ _ _ => 0) (fun _ _ _ _ => 1)⟩

end Metapupil
